import Mathlib

/-!
Verification development for the CrawlVaani backend crawler
(`src/crawler.js` and the module in `src/unnamed/part_000`).

The crawler's session state (module-level arrays/sets/maps), its
`crawlPage` admission and processing logic, the sitemap resolver
`getSitemapUrls`, the URL helper `normalizeUrl`, and the per-link
processing loop are embedded as executable Lean definitions.  URLs and
other JS strings are modelled as `List Char` so that string-level
operations (`split("#")[0]`, `trim`, `startsWith`) are directly
expressible and provable.

The JavaScript platform API `new URL(...)` is modelled by a simplified
WHATWG-style parser restricted to `http`/`https` URLs of the shape
`scheme://host/path`: parsing succeeds exactly on strings with such a
prefix and a non-empty host, serialization re-emits the components
(adding the canonical `/` for an empty path, as the real API does), and
every other input is a parse failure (the `catch` branch of the source).
-/

namespace CrawlVaani

/-- JS strings are modelled as lists of characters. -/
abbrev Str := List Char

/-- The characters of `"https://"`. -/
def httpsPrefix : Str := ['h', 't', 't', 'p', 's', ':', '/', '/']

/-- The characters of `"http://"`. -/
def httpPrefix : Str := ['h', 't', 't', 'p', ':', '/', '/']

/-- The characters of `"https"`. -/
def httpsScheme : Str := ['h', 't', 't', 'p', 's']

/-- The characters of `"http"`. -/
def httpScheme : Str := ['h', 't', 't', 'p']

/-- Split an authority-and-path remainder into host and path components:
the host is everything up to the first `/`, the path is the rest.
Parsing fails on an empty host (model of `new URL` rejecting a missing
host for special schemes). -/
def mkParse (scheme rest : Str) : Option (Str × Str × Str) :=
  let host := rest.takeWhile (fun c => c ≠ '/')
  let path := rest.dropWhile (fun c => c ≠ '/')
  if host = [] then none else some (scheme, host, path)

/-- Model of WHATWG URL parsing restricted to `http(s)://host/path`
shapes (see the module docstring).  Returns `(scheme, host, path)`. -/
def parseHttpUrl (s : Str) : Option (Str × Str × Str) :=
  if httpsPrefix.isPrefixOf s then mkParse httpsScheme (s.drop 8)
  else if httpPrefix.isPrefixOf s then mkParse httpScheme (s.drop 7)
  else none

/-- Serialization of a parsed URL back to its string form (`.href`):
`scheme://host/path`, with the canonical path `/` when the path is
empty (as `new URL("https://a.com").href = "https://a.com/"`). -/
def serializeUrl (scheme host path : Str) : Str :=
  scheme ++ [':', '/', '/'] ++ host ++ (if path = [] then ['/'] else path)

/-- Embedding of `normalizeUrl` (src/unnamed/part_000 lines 1021-1027):
`try { return new URL(url).href } catch (e) { return url }`. -/
def normalizeUrl (url : Str) : Str :=
  match parseHttpUrl url with
  | some (scheme, host, path) => serializeUrl scheme host path
  | none => url

/-- The origin of an absolute http(s) URL, `scheme://host`, as computed
by `new URL(u).origin` (src/unnamed/part_000 line 1063). -/
def urlOrigin (s : Str) : Option Str :=
  match parseHttpUrl s with
  | some (scheme, host, _) => some (scheme ++ [':', '/', '/'] ++ host)
  | none => none

/-- JS whitespace for `String.prototype.trim`. -/
def isJsSpace (c : Char) : Bool :=
  c = ' ' ∨ c = '\t' ∨ c = '\n' ∨ c = '\r'

/-- Model of `s.trim()`: strip whitespace from both ends. -/
def trimStr (s : Str) : Str :=
  ((s.dropWhile isJsSpace).reverse.dropWhile isJsSpace).reverse

/-- Model of `href.split("#")[0].trim()` (src/unnamed/part_000 line 506):
everything before the first `#`, trimmed. -/
def cleanHref (href : Str) : Str :=
  trimStr (href.takeWhile (fun c => c ≠ '#'))

/-- The scheme filter of the link-processing loop (src/unnamed/part_000
lines 507-515): hrefs with `mailto:`, `tel:`, `javascript:`, `data:` or
`blob:` schemes are skipped. -/
def isSkippedScheme (s : Str) : Bool :=
  "mailto:".toList.isPrefixOf s ∨ "tel:".toList.isPrefixOf s ∨
  "javascript:".toList.isPrefixOf s ∨ "data:".toList.isPrefixOf s ∨
  "blob:".toList.isPrefixOf s

/-- Does the string begin with `letters:` (a URL scheme)? -/
def hasSchemePrefix (s : Str) : Bool :=
  let a := s.takeWhile Char.isAlpha
  ¬a.isEmpty ∧ (s.drop a.length).head? = some ':'

/-- The base path's directory: everything up to and including the last
`/`, defaulting to `/`. -/
def dirOfPath (p : Str) : Str :=
  let d := (p.reverse.dropWhile (fun c => c ≠ '/')).reverse
  if d = [] then ['/'] else d

/-- Model of `new URL(cleaned, base).href` (src/unnamed/part_000 line
521), simplified: fails when the base is not a parseable http(s) URL
(the real constructor throws); a reference with its own scheme is kept
as-is; `//h/p` takes the base's scheme; `/p` joins the base's origin;
anything else joins the base's directory. -/
def resolveAgainstBase (cleaned base : Str) : Option Str :=
  match parseHttpUrl base with
  | none => none
  | some (scheme, host, path) =>
    if hasSchemePrefix cleaned then some cleaned
    else if ['/', '/'].isPrefixOf cleaned then some (scheme ++ [':'] ++ cleaned)
    else if ['/'].isPrefixOf cleaned then
      some (scheme ++ [':', '/', '/'] ++ host ++ cleaned)
    else some (scheme ++ [':', '/', '/'] ++ host ++ dirOfPath path ++ cleaned)

/-- Page budget of src/unnamed/part_000 (line 16). -/
def MAX_PAGES : Nat := 2000

/-- Page budget of src/crawler.js (line 14). -/
def MAX_PAGES_JS : Nat := 50000

/-- The module-level mutable crawl-session state of
src/unnamed/part_000 (lines 22-58) and src/crawler.js (lines 20-56):
the visited set, every report accumulator array, the content-hash map
and the counters.  Record payloads that no claim inspects (SEO fields,
image attributes, ...) are elided to the page URL that the source
pushes them for; the push sites themselves are kept.  `Date.now()`
readings enter as explicit parameters. -/
structure CrawlState where
  visited : List Str
  workingLinks : List (Str × Nat)
  brokenLinks : List (Str × Str)
  seoInsights : List Str
  imageAlts : List Str
  keywordStats : List Str
  externalLinks : List (Str × Str)
  missingAnchorTexts : List Str
  accessibilityIssues : List Str
  metaTagAudit : List Str
  structuredData : List Str
  technicalSeo : List Str
  ogTags : List Str
  metaTags : List Str
  pagePerformanceMetrics : List Str
  webCoreVitals : List Str
  duplicateContentIssues : List (Str × Str)
  contentHashes : List (Str × Str)
  brokenResources : List Str
  sitemapRobotsInfo : List Str
  missingSeoIssues : List Str
  pagesScanned : Nat
  pmStartTime : Nat
  pmPagesCrawled : Nat
  pmErrors : Nat
  pmAverageResponseTime : Nat
  pmTotalResponseTime : Nat
deriving Repr, DecidableEq

/-- The state at module load: every array empty, every counter zero. -/
def emptyState : CrawlState :=
  { visited := [], workingLinks := [], brokenLinks := [], seoInsights := []
    imageAlts := [], keywordStats := [], externalLinks := []
    missingAnchorTexts := [], accessibilityIssues := [], metaTagAudit := []
    structuredData := [], technicalSeo := [], ogTags := [], metaTags := []
    pagePerformanceMetrics := [], webCoreVitals := []
    duplicateContentIssues := [], contentHashes := [], brokenResources := []
    sitemapRobotsInfo := [], missingSeoIssues := [], pagesScanned := 0
    pmStartTime := 0, pmPagesCrawled := 0, pmErrors := 0
    pmAverageResponseTime := 0, pmTotalResponseTime := 0 }

/-- `contentHashes.get(hash)` on the assoc-list model of the `Map`. -/
def lookupHash (m : List (Str × Str)) (hash : Str) : Option Str :=
  (m.find? (fun p => p.1 = hash)).map (fun p => p.2)

/-- The duplicate-content detection block of `crawlPage`
(src/unnamed/part_000 lines 377-394, src/crawler.js lines 317-334):
if the hash is already in `contentHashes`, push a duplicate record
referencing the stored URL; otherwise record `hash -> url` (the
near-duplicate loop in the source is a no-op and is not modelled). -/
def recordContentHash (st : CrawlState) (hash url : Str) : CrawlState :=
  match lookupHash st.contentHashes hash with
  | some orig =>
    { st with duplicateContentIssues := st.duplicateContentIssues ++ [(url, orig)] }
  | none => { st with contentHashes := st.contentHashes ++ [(hash, url)] }

/-- The target-computation half of one `links.forEach` iteration of
`crawlPage` (src/unnamed/part_000 lines 505-525, src/crawler.js lines
441-461): clean the href, skip empty hrefs and non-crawlable schemes,
take `http`-prefixed hrefs verbatim, and resolve everything else
against the base (`none` on resolution failure, the skipped link). -/
def linkTarget (href base : Str) : Option Str :=
  let cleaned := cleanHref href
  if cleaned = [] ∨ isSkippedScheme cleaned then none
  else if "http".toList.isPrefixOf cleaned then some cleaned
  else resolveAgainstBase cleaned base

/-- The classification half of one `links.forEach` iteration
(src/unnamed/part_000 lines 527-540, src/crawler.js lines 463-476),
applied to the target computed by `linkTarget`: enqueue when the
target prefix-matches `base` or `baseDomain`, the budget is not
reached, and the target is neither visited nor already queued;
otherwise (non-matching prefix) push an external-link record. -/
def processLink (st : CrawlState) (queue : List Str)
    (currentUrl base baseDomain href : Str) : CrawlState × List Str :=
  match linkTarget href base with
  | none => (st, queue)
  | some fullHref =>
      if base.isPrefixOf fullHref ∨ baseDomain.isPrefixOf fullHref then
        if st.visited.length < MAX_PAGES then
          if fullHref ∉ st.visited ∧ fullHref ∉ queue then
            (st, queue ++ [fullHref])
          else (st, queue)
        else (st, queue)
      else
        ({ st with externalLinks := st.externalLinks ++ [(currentUrl, fullHref)] },
         queue)

/-- The whole `links.forEach` loop. -/
def processLinks (st : CrawlState) (queue : List Str)
    (currentUrl base baseDomain : Str) (links : List (Str × Str)) :
    CrawlState × List Str :=
  links.foldl
    (fun acc l => processLink acc.1 acc.2 currentUrl base baseDomain l.1)
    (st, queue)

/-- The external-link classification of `extractLinks`
(src/unnamed/part_000 lines 271-317): same cleaning, a scheme filter of
only `mailto:`/`tel:`/`javascript:`, same resolution, and a link counts
as external when it does not prefix-match `base` (this second push site
feeds `externalLinks` at line 673 in addition to the forEach loop). -/
def extractLinksExternals (currentUrl base : Str)
    (links : List (Str × Str)) : List (Str × Str) :=
  links.filterMap (fun l =>
    let cleaned := cleanHref l.1
    if cleaned = [] ∨ "mailto:".toList.isPrefixOf cleaned ∨
        "tel:".toList.isPrefixOf cleaned ∨
        "javascript:".toList.isPrefixOf cleaned then none
    else
      let fullHref? : Option Str :=
        if "http".toList.isPrefixOf cleaned then some cleaned
        else resolveAgainstBase cleaned base
      match fullHref? with
      | none => none
      | some fullHref =>
        if base.isPrefixOf fullHref then none
        else some (currentUrl, fullHref))

/-- The data a successfully fetched and parsed page contributes to the
session: the sha256 hash of its normalised body text (the hash value is
carried as opaque data), the `(href, text)` pairs of its anchors, and
the per-page record batches the extraction code pushes into the various
report arrays (payloads elided, see `CrawlState`). -/
structure PageData where
  bodyHash : Str
  links : List (Str × Str)
  metaTagsOf : List Str
  ogTagsOf : List Str
  imageAltFindings : List Str
  accessibilityFindings : List Str
  missingSeoFindings : List Str
  missingAnchorFindings : List Str
  structuredDataFindings : List Str
  keywordFindings : List Str
  brokenResourceFindings : List Str
deriving Repr, DecidableEq

/-- Outcome of the primary (rendering) fetch of one page: either the
parsed page data, or the thrown error's message/status text. -/
inductive FetchOutcome where
  | success (page : PageData)
  | failure (errMsg : Str)
deriving Repr, DecidableEq

/-- The admission block at the top of `crawlPage`
(src/unnamed/part_000 lines 349-356): normalize the URL, return
`false` (deny) if it is already visited or the page budget is reached,
otherwise add it to the visited set and bump the page counters.  In
the source this block is synchronous JavaScript with no `await`
between the membership check and the `add`, so under the event-loop
execution model it is one atomic step with respect to all concurrently
scheduled `crawlPage` invocations; it is therefore modelled as a
single state transition. -/
def tryAdmit (st : CrawlState) (currentUrl : Str) : Bool × CrawlState :=
  let u := normalizeUrl currentUrl
  if u ∈ st.visited ∨ MAX_PAGES ≤ st.visited.length then (false, st)
  else
    (true,
     { st with visited := u :: st.visited,
               pagesScanned := st.pagesScanned + 1,
               pmPagesCrawled := st.pmPagesCrawled + 1 })

/-- The successful-fetch body of `crawlPage` (src/unnamed/part_000
lines 377-826), in source order: duplicate-content detection, the
accessibility/SEO audit pushes, link processing (queue and external
links), the meta/OG/seo/audit/technical pushes, image analysis, the
`extractLinks` external push, anchor/structured-data/keyword/broken-
resource pushes, the response-time metrics update, and finally the
working-link record `{url, status: 200}`. -/
def processSuccessfulPage (st : CrawlState) (queue : List Str)
    (u base baseDomain : Str) (page : PageData) (responseTime : Nat) :
    CrawlState × List Str :=
  let st := recordContentHash st page.bodyHash u
  let st := { st with
    accessibilityIssues := st.accessibilityIssues ++ page.accessibilityFindings,
    missingSeoIssues := st.missingSeoIssues ++ page.missingSeoFindings }
  let pr := processLinks st queue u base baseDomain page.links
  let st := pr.1
  let queue := pr.2
  let st := { st with
    metaTags := st.metaTags ++ page.metaTagsOf,
    ogTags := st.ogTags ++ page.ogTagsOf,
    seoInsights := st.seoInsights ++ [u],
    metaTagAudit := st.metaTagAudit ++ [u],
    technicalSeo := st.technicalSeo ++ [u],
    imageAlts := st.imageAlts ++ page.imageAltFindings,
    externalLinks := st.externalLinks ++ extractLinksExternals u base page.links,
    missingAnchorTexts := st.missingAnchorTexts ++ page.missingAnchorFindings,
    structuredData := st.structuredData ++ page.structuredDataFindings,
    keywordStats := st.keywordStats ++ page.keywordFindings,
    brokenResources := st.brokenResources ++ page.brokenResourceFindings }
  let st := { st with
    pmTotalResponseTime := st.pmTotalResponseTime + responseTime,
    pmAverageResponseTime :=
      (st.pmTotalResponseTime + responseTime) / st.pmPagesCrawled,
    workingLinks := st.workingLinks ++ [(u, 200)] }
  (st, queue)

/-- Embedding of `crawlPage` from src/unnamed/part_000 (lines 341-835):
admission via `tryAdmit`, then on fetch success the full page
processing, and on fetch failure (the `catch`, lines 827-834) only a
broken-link record `{url, status: err.message}` — this variant has no
fallback fetch.  The division in the average-response-time update is
`Nat` division standing in for JS float division. -/
def crawlPage (st : CrawlState) (queue : List Str)
    (currentUrl base baseDomain : Str) (outcome : FetchOutcome)
    (responseTime : Nat) : CrawlState × List Str :=
  match tryAdmit st currentUrl with
  | (false, _) => (st, queue)
  | (true, st1) =>
    let u := normalizeUrl currentUrl
    match outcome with
    | .failure errMsg =>
      ({ st1 with brokenLinks := st1.brokenLinks ++ [(u, errMsg)] }, queue)
    | .success page =>
      processSuccessfulPage st1 queue u base baseDomain page responseTime

/-- Outcome of the axios fallback GET in src/crawler.js: on success the
HTTP status plus the page batches the fallback path pushes; `none`
when axios also threw. -/
structure FallbackPage where
  status : Nat
  metaTagsOf : List Str
  ogTagsOf : List Str
deriving Repr, DecidableEq

/-- Embedding of `crawlPage` from src/crawler.js (lines 225-827).
Differences from the src/unnamed/part_000 variant: no `normalizeUrl`
at entry, budget `MAX_PAGES_JS`, a Lighthouse push for the main page,
and a fallback fetch in the `catch` (lines 755-816): on primary
failure the code increments the error counter and pushes a broken-link
record first, then performs the axios fallback GET; a successful
fallback additionally pushes a working-link record with the response
status, the fallback meta/OG batches and a seo-insights record.  The
returned `Bool` reports whether the fallback fetch was invoked (i.e.
whether control reached the `catch` block's axios call). -/
def crawlPageJs (st : CrawlState) (queue : List Str)
    (currentUrl base mainPageUrl baseDomain : Str) (outcome : FetchOutcome)
    (fallback : Option FallbackPage) (responseTime : Nat) :
    CrawlState × List Str × Bool :=
  if currentUrl ∈ st.visited ∨ MAX_PAGES_JS ≤ st.visited.length then
    (st, queue, false)
  else
    let st1 := { st with
      visited := currentUrl :: st.visited,
      pagesScanned := st.pagesScanned + 1,
      pmPagesCrawled := st.pmPagesCrawled + 1 }
    match outcome with
    | .success page =>
      let pr :=
        processSuccessfulPage st1 queue currentUrl base baseDomain page
          responseTime
      let st2 := pr.1
      let queue2 := pr.2
      let st3 :=
        if currentUrl = mainPageUrl then
          { st2 with
            pagePerformanceMetrics := st2.pagePerformanceMetrics ++ [currentUrl],
            webCoreVitals := st2.webCoreVitals ++ [currentUrl] }
        else st2
      (st3, queue2, false)
    | .failure errMsg =>
      let st2 := { st1 with
        pmErrors := st1.pmErrors + 1,
        brokenLinks := st1.brokenLinks ++ [(currentUrl, errMsg)] }
      match fallback with
      | none => (st2, queue, true)
      | some fb =>
        let st3 := { st2 with
          workingLinks := st2.workingLinks ++ [(currentUrl, fb.status)],
          metaTags := st2.metaTags ++ fb.metaTagsOf,
          ogTags := st2.ogTags ++ fb.ogTagsOf,
          seoInsights := st2.seoInsights ++ [currentUrl] }
        (st3, queue, true)

/-- The reset block at the start of `runCrawl` (src/unnamed/part_000
lines 1029-1058, src/crawler.js lines 926-955), field for field:
`visited` is cleared, each listed report array is truncated to length
0, `pagesScanned` is zeroed and the performance metrics are reset with
a fresh `Date.now()` reading.  The `contentHashes` map does not appear
in the source's reset list and is left untouched. -/
def resetSession (st : CrawlState) (now : Nat) : CrawlState :=
  { st with
    visited := [], workingLinks := [], brokenLinks := []
    seoInsights := [], imageAlts := [], keywordStats := []
    externalLinks := [], missingAnchorTexts := [], accessibilityIssues := []
    metaTagAudit := [], structuredData := [], technicalSeo := []
    ogTags := [], metaTags := [], pagePerformanceMetrics := []
    webCoreVitals := [], duplicateContentIssues := [], brokenResources := []
    sitemapRobotsInfo := [], missingSeoIssues := [], pagesScanned := 0
    pmStartTime := now, pmPagesCrawled := 0, pmErrors := 0
    pmTotalResponseTime := 0, pmAverageResponseTime := 0 }

/-- Run a sequence of admission attempts (one per concurrently
scheduled `crawlPage` invocation, in the order the event loop
serialises them), recording each attempt's URL and grant decision. -/
def runAdmissions (st : CrawlState) : List Str → List (Str × Bool) × CrawlState
  | [] => ([], st)
  | u :: rest =>
    let g := (tryAdmit st u).1
    let st1 := (tryAdmit st u).2
    let res := runAdmissions st1 rest
    ((u, g) :: res.1, res.2)

/-- How many of the recorded admission attempts for URLs normalizing
to `v` were granted. -/
def admittedCount (results : List (Str × Bool)) (v : Str) : Nat :=
  (results.filter (fun r => r.2 && decide (normalizeUrl r.1 = v))).length

/-- Fold the duplicate-content detection step over a sequence of
`(hash, url)` page events in completion order. -/
def runHashEvents (st : CrawlState) (events : List (Str × Str)) : CrawlState :=
  events.foldl (fun s e => recordContentHash s e.1 e.2) st

/-- The URL of the first event in the sequence carrying the given
hash. -/
def firstUrlFor (events : List (Str × Str)) (h : Str) : Option Str :=
  ((events.find? (fun e => e.1 = h)).map (fun e => e.2))

/-- A fetched-and-parsed sitemap document (src/unnamed/part_000 lines
324-334): a `urlset` with leaf URLs, a `sitemapindex` with child
sitemap URLs, or something that is neither (no URLs extracted). -/
inductive SitemapDoc where
  | urlset (locs : List Str)
  | sitemapindex (children : List Str)
  | other
deriving Repr, DecidableEq

/-- The network, as the sitemap resolver sees it: which sitemap URL
yields which document.  A URL with no entry is a fetch or parse
failure (the `catch` at line 336: resolution yields `[]`). -/
abbrev SitemapWeb := List (Str × SitemapDoc)

/-- `axios.get` + `xml2js` parse of one sitemap URL. -/
def fetchSitemap (web : SitemapWeb) (u : Str) : Option SitemapDoc :=
  (web.find? (fun p => p.1 = u)).map (fun p => p.2)

/-- Embedding of `getSitemapUrls` (src/unnamed/part_000 lines
320-339): return `[]` for a sitemap URL already in the shared seen-set,
otherwise mark it seen, fetch it, and either return the urlset's leaf
URLs, loop over a sitemapindex's children concatenating their
recursive resolutions (the seen-set is threaded left to right through
the loop, modelling the mutated JS `Set`), or return `[]` on
fetch/parse failure.  `fuel` bounds the recursion depth, which the
source leaves implicit; the fuel-independence theorem for claim C7
shows any `fuel > countUnseen web seen` gives the same result, i.e.
the recursion terminates. -/
def getSitemapUrlsF : Nat → SitemapWeb → Str → List Str → List Str × List Str
  | 0, _, _, seen => ([], seen)
  | fuel + 1, web, sitemapUrl, seen =>
    if sitemapUrl ∈ seen then ([], seen)
    else
      let seen1 := sitemapUrl :: seen
      match fetchSitemap web sitemapUrl with
      | none => ([], seen1)
      | some (.urlset locs) => (locs, seen1)
      | some .other => ([], seen1)
      | some (.sitemapindex children) =>
        children.foldl
          (fun acc c =>
            let pr := getSitemapUrlsF fuel web c acc.2
            (acc.1 ++ pr.1, pr.2))
          ([], seen1)

/-- The `for (const sm of parsed.sitemapindex.sitemap)` loop of
`getSitemapUrls` (lines 330-333), named for the lemmas: concatenate
the child results, threading the seen-set left to right. -/
def resolveChildrenF (fuel : Nat) (web : SitemapWeb) (cs : List Str)
    (acc : List Str × List Str) : List Str × List Str :=
  cs.foldl
    (fun acc c =>
      let pr := getSitemapUrlsF fuel web c acc.2
      (acc.1 ++ pr.1, pr.2))
    acc

/-- The sitemap URLs the web knows about. -/
def sitemapKeys (web : SitemapWeb) : List Str := web.map (fun p => p.1)

/-- How many known sitemap URLs are not yet in the seen-set: an upper
bound on the remaining recursion depth of the resolver. -/
def countUnseen (web : SitemapWeb) (seen : List Str) : Nat :=
  ((sitemapKeys web).filter (fun k => k ∉ seen)).length

/-- `getSitemapUrls(sitemapUrl)` as called from `runCrawl` (line 1101):
fresh empty seen-set, with enough fuel for the whole web. -/
def getSitemapUrls (web : SitemapWeb) (sitemapUrl : Str) : List Str :=
  (getSitemapUrlsF (countUnseen web [] + 1) web sitemapUrl []).1

/-- One scheduled page crawl: the URL, its fetch outcome and its
response time. -/
structure CrawlEvent where
  url : Str
  outcome : FetchOutcome
  responseTime : Nat

/-- Fold `crawlPage` over a sequence of page crawls in completion
order. -/
def runCrawlSteps (base baseDomain : Str) (st : CrawlState)
    (queue : List Str) : List CrawlEvent → CrawlState × List Str
  | [] => (st, queue)
  | e :: rest =>
    let pr := crawlPage st queue e.url base baseDomain e.outcome e.responseTime
    runCrawlSteps base baseDomain pr.1 pr.2 rest

/-! ### Helper lemmas: which fields each step touches -/

theorem visited_recordContentHash (st : CrawlState) (h u : Str) :
    (recordContentHash st h u).visited = st.visited := by
  unfold recordContentHash
  cases lookupHash st.contentHashes h <;> rfl

theorem visited_processLink (st : CrawlState) (q : List Str)
    (c b bd href : Str) : ((processLink st q c b bd href).1).visited = st.visited := by
  unfold processLink
  cases linkTarget href b with
  | none => rfl
  | some fh =>
    dsimp only
    split
    · split
      · split <;> rfl
      · rfl
    · rfl

theorem visited_processLinks (links : List (Str × Str)) (st : CrawlState)
    (q : List Str) (c b bd : Str) :
    ((processLinks st q c b bd links).1).visited = st.visited := by
  induction links generalizing st q with
  | nil => rfl
  | cons l rest ih =>
    unfold processLinks at *
    simp only [List.foldl_cons]
    rw [ih]
    exact visited_processLink st q c b bd l.1

theorem visited_processSuccessfulPage (st : CrawlState) (q : List Str)
    (u b bd : Str) (page : PageData) (rt : Nat) :
    ((processSuccessfulPage st q u b bd page rt).1).visited = st.visited := by
  unfold processSuccessfulPage
  dsimp only
  rw [visited_processLinks]
  rw [visited_recordContentHash]

/-- When the admission guard denies (already visited or budget
reached), `tryAdmit` grants nothing and leaves the state unchanged. -/
theorem tryAdmit_denied (st : CrawlState) (u : Str)
    (h : normalizeUrl u ∈ st.visited ∨ MAX_PAGES ≤ st.visited.length) :
    tryAdmit st u = (false, st) := by
  unfold tryAdmit
  simp only [if_pos h]

/-- When the guard admits, `tryAdmit` adds the normalized URL and bumps
the page counters. -/
theorem tryAdmit_granted (st : CrawlState) (u : Str)
    (h : ¬(normalizeUrl u ∈ st.visited ∨ MAX_PAGES ≤ st.visited.length)) :
    tryAdmit st u =
      (true,
       { st with visited := normalizeUrl u :: st.visited,
                 pagesScanned := st.pagesScanned + 1,
                 pmPagesCrawled := st.pmPagesCrawled + 1 }) := by
  unfold tryAdmit
  simp only [if_neg h]

/-! ### C10 -/

/-- C10: calling `crawlPage` with a URL that is already in the visited
set (the source stores normalized URLs, so visited entries are fixed
points of `normalizeUrl`), or when the visited set has reached
`MAX_PAGES`, returns immediately with every piece of session state —
the whole `CrawlState` and the pending queue — unchanged. -/
theorem c10_early_return_frame (st : CrawlState) (queue : List Str)
    (u base baseDomain : Str) (outcome : FetchOutcome) (rt : Nat) :
    ((normalizeUrl u ∈ st.visited ∨ MAX_PAGES ≤ st.visited.length) →
      crawlPage st queue u base baseDomain outcome rt = (st, queue)) ∧
    ((∀ v ∈ st.visited, normalizeUrl v = v) → u ∈ st.visited →
      crawlPage st queue u base baseDomain outcome rt = (st, queue)) := by
  constructor
  · intro h
    unfold crawlPage
    rw [tryAdmit_denied st u h]
  · intro hfix hu
    unfold crawlPage
    rw [tryAdmit_denied st u (Or.inl (by rw [hfix u hu]; exact hu))]

/-- Witness for C10 at a concrete state: `https://a.com/` is already
visited (and is a `normalizeUrl` fixed point), so the crawl step is a
no-op. -/
theorem c10_early_return_frame_witness :
    crawlPage { emptyState with visited := ["https://a.com/".toList] } []
      "https://a.com/".toList "https://a.com/".toList
      "https://a.com".toList (.failure []) 0 =
      ({ emptyState with visited := ["https://a.com/".toList] }, []) :=
  (c10_early_return_frame _ _ _ _ _ _ _).1 (Or.inl (by decide))

/-! ### C3 -/

/-- A `crawlPage` step either leaves the visited set unchanged, or —
only when its size is strictly below the budget — adds exactly the
normalized URL. -/
theorem crawlPage_visited_cases (st : CrawlState) (q : List Str)
    (u b bd : Str) (o : FetchOutcome) (rt : Nat) :
    (crawlPage st q u b bd o rt).1.visited = st.visited ∨
    ((crawlPage st q u b bd o rt).1.visited = normalizeUrl u :: st.visited ∧
      st.visited.length < MAX_PAGES) := by
  by_cases hg : normalizeUrl u ∈ st.visited ∨ MAX_PAGES ≤ st.visited.length
  · left
    unfold crawlPage
    rw [tryAdmit_denied st u hg]
  · right
    constructor
    · unfold crawlPage
      rw [tryAdmit_granted st u hg]
      dsimp only
      cases o with
      | failure msg => rfl
      | success page => rw [visited_processSuccessfulPage]
    · push_neg at hg
      omega

/-- C3: `crawlPage` adds a URL to the visited set only when the set's
size is strictly below `MAX_PAGES`, and consequently over any sequence
of crawl steps the visited set's size never exceeds `MAX_PAGES`. -/
theorem c3_budget_ceiling (base baseDomain : Str) (st : CrawlState)
    (queue : List Str) (events : List CrawlEvent) (u b bd : Str)
    (o : FetchOutcome) (rt : Nat) :
    ((crawlPage st queue u b bd o rt).1.visited ≠ st.visited →
      st.visited.length < MAX_PAGES) ∧
    (st.visited.length ≤ MAX_PAGES →
      ((runCrawlSteps base baseDomain st queue events).1).visited.length ≤
        MAX_PAGES) := by
  constructor
  · intro hne
    rcases crawlPage_visited_cases st queue u b bd o rt with h | ⟨_, hlt⟩
    · exact absurd h hne
    · exact hlt
  · intro hle
    induction events generalizing st queue with
    | nil => exact hle
    | cons e rest ih =>
      unfold runCrawlSteps
      apply ih
      rcases crawlPage_visited_cases st queue e.url base baseDomain e.outcome
          e.responseTime with h | ⟨h, hlt⟩
      · rw [h]; exact hle
      · rw [h]; simpa using hlt

/-- Witness for C3 at concrete inputs: a fresh session crawling one
failing page adds the URL (the budget was not reached) and keeps the
visited size within the budget. -/
theorem c3_budget_ceiling_witness :
    ((crawlPage emptyState [] "https://a.com/".toList "https://a.com/".toList
        "https://a.com".toList (.failure []) 0).1.visited ≠
          emptyState.visited ∧
      emptyState.visited.length < MAX_PAGES) ∧
    (emptyState.visited.length ≤ MAX_PAGES ∧
      ((runCrawlSteps "https://a.com/".toList "https://a.com".toList
          emptyState []
          [⟨"https://a.com/".toList, .failure [], 0⟩]).1).visited.length ≤
        MAX_PAGES) :=
  ⟨⟨by decide,
    (c3_budget_ceiling "https://a.com/".toList "https://a.com".toList
        emptyState [] [] "https://a.com/".toList "https://a.com/".toList
        "https://a.com".toList (.failure []) 0).1 (by decide)⟩,
   ⟨by decide,
    (c3_budget_ceiling "https://a.com/".toList "https://a.com".toList
        emptyState []
        [⟨"https://a.com/".toList, .failure [], 0⟩] "https://a.com/".toList
        "https://a.com/".toList "https://a.com".toList (.failure []) 0).2
      (by decide)⟩⟩

/-! ### C4 -/

theorem tryAdmit_granted_visited (st : CrawlState) (u : Str)
    (h : (tryAdmit st u).1 = true) :
    (tryAdmit st u).2.visited = normalizeUrl u :: st.visited ∧
      normalizeUrl u ∉ st.visited := by
  by_cases hg : normalizeUrl u ∈ st.visited ∨ MAX_PAGES ≤ st.visited.length
  · rw [tryAdmit_denied st u hg] at h
    exact Bool.noConfusion h
  · rw [tryAdmit_granted st u hg]
    exact ⟨rfl, fun hmem => hg (Or.inl hmem)⟩

theorem tryAdmit_not_granted (st : CrawlState) (u : Str)
    (h : (tryAdmit st u).1 = false) : (tryAdmit st u).2 = st := by
  by_cases hg : normalizeUrl u ∈ st.visited ∨ MAX_PAGES ≤ st.visited.length
  · rw [tryAdmit_denied st u hg]
  · rw [tryAdmit_granted st u hg] at h
    exact Bool.noConfusion h

theorem tryAdmit_denied_of_mem (st : CrawlState) (u : Str)
    (h : normalizeUrl u ∈ st.visited) : (tryAdmit st u).1 = false := by
  rw [tryAdmit_denied st u (Or.inl h)]

theorem tryAdmit_visited_mono (st : CrawlState) (u v : Str)
    (h : v ∈ st.visited) : v ∈ (tryAdmit st u).2.visited := by
  by_cases hg : normalizeUrl u ∈ st.visited ∨ MAX_PAGES ≤ st.visited.length
  · rw [tryAdmit_denied st u hg]
    exact h
  · rw [tryAdmit_granted st u hg]
    exact List.mem_cons_of_mem _ h

theorem tryAdmit_nodup (st : CrawlState) (u : Str)
    (h : st.visited.Nodup) : (tryAdmit st u).2.visited.Nodup := by
  by_cases hg : normalizeUrl u ∈ st.visited ∨ MAX_PAGES ≤ st.visited.length
  · rw [tryAdmit_denied st u hg]
    exact h
  · rw [tryAdmit_granted st u hg]
    exact List.Nodup.cons (fun hmem => hg (Or.inl hmem)) h

theorem admittedCount_cons (r : Str × Bool) (l : List (Str × Bool)) (v : Str) :
    admittedCount (r :: l) v =
      (if r.2 && decide (normalizeUrl r.1 = v) then 1 else 0) +
        admittedCount l v := by
  unfold admittedCount
  rw [List.filter_cons]
  split
  · simp [Nat.add_comm]
  · simp

/-- Once a URL is visited, no later admission attempt normalizing to it
is ever granted. -/
theorem runAdmissions_count_zero (us : List Str) (st : CrawlState) (v : Str)
    (hv : v ∈ st.visited) :
    admittedCount ((runAdmissions st us).1) v = 0 := by
  induction us generalizing st with
  | nil => rfl
  | cons u rest ih =>
    unfold runAdmissions
    dsimp only
    rw [admittedCount_cons]
    have hhead : ((tryAdmit st u).1 && decide (normalizeUrl u = v)) = false := by
      by_cases he : normalizeUrl u = v
      · rw [tryAdmit_denied_of_mem st u (he ▸ hv)]
        rfl
      · simp [he]
    rw [hhead]
    simp only [if_false, Bool.false_eq_true, Nat.zero_add]
    exact ih _ (tryAdmit_visited_mono st u v hv)

/-- C4: over any serialisation of concurrently scheduled admission
attempts, at most one attempt for URLs normalizing to `v` is granted
(so at most one `crawlPage` invocation for a given URL performs the
fetch and record-pushing work), and the visited set stays
duplicate-free — a URL enters it at most once. -/
theorem c4_at_most_once_admission (st : CrawlState) (us : List Str) (v : Str) :
    admittedCount ((runAdmissions st us).1) v ≤ 1 ∧
    (st.visited.Nodup → ((runAdmissions st us).2).visited.Nodup) := by
  constructor
  · induction us generalizing st with
    | nil => exact Nat.zero_le 1
    | cons u rest ih =>
      unfold runAdmissions
      dsimp only
      rw [admittedCount_cons]
      by_cases hg : (tryAdmit st u).1 = true
      · by_cases he : normalizeUrl u = v
        · have hzero : admittedCount ((runAdmissions (tryAdmit st u).2 rest).1) v = 0 := by
            apply runAdmissions_count_zero
            rw [← he, (tryAdmit_granted_visited st u hg).1]
            exact List.mem_cons_self _ _
          rw [hzero]
          simp [hg, he]
        · simp only [he, decide_False, Bool.and_false, Bool.false_eq_true,
            if_false, Nat.zero_add]
          exact ih _
      · have hgf : (tryAdmit st u).1 = false := Bool.eq_false_iff.mpr hg
        simp only [hgf, Bool.false_and, Bool.false_eq_true, if_false,
          Nat.zero_add]
        exact ih _
  · intro hnd
    induction us generalizing st with
    | nil => exact hnd
    | cons u rest ih =>
      unfold runAdmissions
      dsimp only
      exact ih _ (tryAdmit_nodup st u hnd)

/-- Witness for C4: two racing admission attempts for the same URL on a
fresh session — only the first is granted, and the visited set stays
duplicate-free. -/
theorem c4_at_most_once_admission_witness :
    admittedCount
      ((runAdmissions emptyState
        ["https://a.com/".toList, "https://a.com/".toList]).1)
      "https://a.com/".toList ≤ 1 ∧
    (emptyState.visited.Nodup ∧
      ((runAdmissions emptyState
        ["https://a.com/".toList, "https://a.com/".toList]).2).visited.Nodup) :=
  ⟨(c4_at_most_once_admission emptyState _ _).1,
   ⟨by decide,
    (c4_at_most_once_admission emptyState
      ["https://a.com/".toList, "https://a.com/".toList]
      "https://a.com/".toList).2 (by decide)⟩⟩

/-! ### C2 -/

/-- C2 counterexample: the claim says the content-fingerprint index is
cleared at the start of every `runCrawl`, but `contentHashes` is absent
from the source's reset list — after the reset it still holds the
previous run's binding, so crawl state observable in a later run's
output (duplicate records citing a previous run's URL) survives. -/
theorem c2_reset_counterexample :
    (resetSession
      { emptyState with
        contentHashes := [("h1".toList, "https://old.example/".toList)] }
      7).contentHashes ≠ [] := by decide

/-- C2 (amended): at the start of `runCrawl` the visited set, every
report accumulator array, `pagesScanned` and the performance metrics
are cleared/reset — but the content-fingerprint index `contentHashes`
is left exactly as the previous run left it. -/
theorem c2_reset_session (st : CrawlState) (now : Nat) :
    (resetSession st now).visited = [] ∧
    (resetSession st now).workingLinks = [] ∧
    (resetSession st now).brokenLinks = [] ∧
    (resetSession st now).seoInsights = [] ∧
    (resetSession st now).imageAlts = [] ∧
    (resetSession st now).keywordStats = [] ∧
    (resetSession st now).externalLinks = [] ∧
    (resetSession st now).missingAnchorTexts = [] ∧
    (resetSession st now).accessibilityIssues = [] ∧
    (resetSession st now).metaTagAudit = [] ∧
    (resetSession st now).structuredData = [] ∧
    (resetSession st now).technicalSeo = [] ∧
    (resetSession st now).ogTags = [] ∧
    (resetSession st now).metaTags = [] ∧
    (resetSession st now).pagePerformanceMetrics = [] ∧
    (resetSession st now).webCoreVitals = [] ∧
    (resetSession st now).duplicateContentIssues = [] ∧
    (resetSession st now).brokenResources = [] ∧
    (resetSession st now).sitemapRobotsInfo = [] ∧
    (resetSession st now).missingSeoIssues = [] ∧
    (resetSession st now).pagesScanned = 0 ∧
    (resetSession st now).pmStartTime = now ∧
    (resetSession st now).pmPagesCrawled = 0 ∧
    (resetSession st now).pmErrors = 0 ∧
    (resetSession st now).pmTotalResponseTime = 0 ∧
    (resetSession st now).pmAverageResponseTime = 0 ∧
    (resetSession st now).contentHashes = st.contentHashes := by
  unfold resetSession
  repeat' apply And.intro
  all_goals rfl

/-! ### C1 -/

/-- C1 (amended): in the src/crawler.js `crawlPage`, once a URL is
admitted the fallback fetch is invoked if and only if the primary
(rendering) fetch failed; when the fallback GET then succeeds the URL
is recorded as a working link, but the broken-link record pushed at the
moment the primary failed (before the fallback attempt) remains — a
broken-link record is emitted for the URL even on fallback success. -/
theorem c1_fallback_invocation (st : CrawlState) (queue : List Str)
    (u base mp bd : Str) (outcome : FetchOutcome)
    (fb : Option FallbackPage) (rt : Nat)
    (hadm : ¬(u ∈ st.visited ∨ MAX_PAGES_JS ≤ st.visited.length)) :
    ((crawlPageJs st queue u base mp bd outcome fb rt).2.2 = true ↔
      ∃ msg, outcome = .failure msg) ∧
    (∀ msg fbp, outcome = .failure msg → fb = some fbp →
      (u, fbp.status) ∈
          (crawlPageJs st queue u base mp bd outcome fb rt).1.workingLinks ∧
        (u, msg) ∈
          (crawlPageJs st queue u base mp bd outcome fb rt).1.brokenLinks) := by
  unfold crawlPageJs
  rw [if_neg hadm]
  cases outcome with
  | success page =>
    constructor
    · dsimp only
      constructor
      · intro h
        exact Bool.noConfusion h
      · rintro ⟨msg, h⟩
        exact FetchOutcome.noConfusion h
    · intro msg fbp h
      exact FetchOutcome.noConfusion h
  | failure msg0 =>
    cases fb with
    | none =>
      constructor
      · dsimp only
        exact ⟨fun _ => ⟨msg0, rfl⟩, fun _ => rfl⟩
      · intro msg fbp _ hfb
        exact Option.noConfusion hfb
    | some fbp0 =>
      constructor
      · dsimp only
        exact ⟨fun _ => ⟨msg0, rfl⟩, fun _ => rfl⟩
      · intro msg fbp hmsg hfb
        injection hmsg with hmsg
        injection hfb with hfb
        subst hmsg
        subst hfb
        dsimp only
        constructor
        · exact List.mem_append_right _ (List.mem_singleton.mpr rfl)
        · exact List.mem_append_right _ (List.mem_singleton.mpr rfl)

/-- C1 counterexample for the claim as stated: primary render of `/z`
fails with a timeout and the fallback GET succeeds with HTTP 200 — the
URL is indeed recorded as a working link via the fallback path, but a
broken-link record for it was already emitted when the primary failed,
contradicting "no broken-link record emitted for it". -/
theorem c1_fallback_invocation_counterexample :
    ("https://e.com/z".toList, "timeout".toList) ∈
      (crawlPageJs emptyState [] "https://e.com/z".toList
        "https://e.com/".toList "https://e.com/".toList
        "https://e.com".toList (.failure "timeout".toList)
        (some ⟨200, [], []⟩) 0).1.brokenLinks ∧
    ("https://e.com/z".toList, 200) ∈
      (crawlPageJs emptyState [] "https://e.com/z".toList
        "https://e.com/".toList "https://e.com/".toList
        "https://e.com".toList (.failure "timeout".toList)
        (some ⟨200, [], []⟩) 0).1.workingLinks := by decide

/-- Witness for C1 at concrete inputs. -/
theorem c1_fallback_invocation_witness :
    ¬("https://e.com/z".toList ∈ emptyState.visited ∨
        MAX_PAGES_JS ≤ emptyState.visited.length) ∧
    ((crawlPageJs emptyState [] "https://e.com/z".toList
        "https://e.com/".toList "https://e.com/".toList
        "https://e.com".toList (.failure "timeout".toList)
        (some ⟨200, [], []⟩) 0).2.2 = true ↔
      ∃ msg, (FetchOutcome.failure "timeout".toList) = .failure msg) ∧
    (("https://e.com/z".toList, (200 : Nat)) ∈
        (crawlPageJs emptyState [] "https://e.com/z".toList
          "https://e.com/".toList "https://e.com/".toList
          "https://e.com".toList (.failure "timeout".toList)
          (some ⟨200, [], []⟩) 0).1.workingLinks ∧
      ("https://e.com/z".toList, "timeout".toList) ∈
        (crawlPageJs emptyState [] "https://e.com/z".toList
          "https://e.com/".toList "https://e.com/".toList
          "https://e.com".toList (.failure "timeout".toList)
          (some ⟨200, [], []⟩) 0).1.brokenLinks) :=
  ⟨by decide,
   (c1_fallback_invocation emptyState [] "https://e.com/z".toList
      "https://e.com/".toList "https://e.com/".toList "https://e.com".toList
      (.failure "timeout".toList) (some ⟨200, [], []⟩) 0 (by decide)).1,
   (c1_fallback_invocation emptyState [] "https://e.com/z".toList
      "https://e.com/".toList "https://e.com/".toList "https://e.com".toList
      (.failure "timeout".toList) (some ⟨200, [], []⟩) 0 (by decide)).2
     "timeout".toList ⟨200, [], []⟩ rfl rfl⟩

/-! ### C6 -/

theorem lookupHash_append_left (m : List (Str × Str)) (e : Str × Str)
    (h v : Str) (hv : lookupHash m h = some v) :
    lookupHash (m ++ [e]) h = some v := by
  unfold lookupHash at hv ⊢
  obtain ⟨q, hq, hq2⟩ := Option.map_eq_some'.mp hv
  rw [List.find?_append, hq, Option.or_some]
  simp [hq2]

theorem lookupHash_append_ne (m : List (Str × Str)) (e : Str × Str)
    (h : Str) (hn : lookupHash m h = none) (hne : e.1 ≠ h) :
    lookupHash (m ++ [e]) h = none := by
  unfold lookupHash at hn ⊢
  rw [List.find?_append, Option.map_eq_none'.mp hn, Option.none_or,
    List.find?_cons_of_neg _ (by simp [hne])]
  rfl

theorem lookupHash_append_self (m : List (Str × Str)) (e : Str × Str)
    (hn : lookupHash m e.1 = none) :
    lookupHash (m ++ [e]) e.1 = some e.2 := by
  unfold lookupHash at hn ⊢
  rw [List.find?_append, Option.map_eq_none'.mp hn, Option.none_or,
    List.find?_cons_of_pos _ (by simp)]
  rfl

/-- When the hash is already bound, the step only emits a duplicate
record referencing the stored (first) URL. -/
theorem recordContentHash_seen (st : CrawlState) (hash url o : Str)
    (hl : lookupHash st.contentHashes hash = some o) :
    (recordContentHash st hash url).contentHashes = st.contentHashes ∧
    (recordContentHash st hash url).duplicateContentIssues =
      st.duplicateContentIssues ++ [(url, o)] := by
  unfold recordContentHash
  rw [hl]
  exact ⟨rfl, rfl⟩

/-- When the hash is unseen, the step only installs the binding. -/
theorem recordContentHash_unseen (st : CrawlState) (hash url : Str)
    (hl : lookupHash st.contentHashes hash = none) :
    (recordContentHash st hash url).contentHashes =
      st.contentHashes ++ [(hash, url)] ∧
    (recordContentHash st hash url).duplicateContentIssues =
      st.duplicateContentIssues := by
  unfold recordContentHash
  rw [hl]
  exact ⟨rfl, rfl⟩

/-- An existing hash binding is never overwritten by one step. -/
theorem lookupHash_record_persist (st : CrawlState) (hash url h v : Str)
    (hv : lookupHash st.contentHashes h = some v) :
    lookupHash (recordContentHash st hash url).contentHashes h = some v := by
  cases hl : lookupHash st.contentHashes hash with
  | some o =>
    rw [(recordContentHash_seen st hash url o hl).1]
    exact hv
  | none =>
    rw [(recordContentHash_unseen st hash url hl).1]
    exact lookupHash_append_left _ _ _ _ hv

/-- An existing hash binding is never overwritten by any sequence of
steps. -/
theorem lookupHash_runHashEvents_persist (events : List (Str × Str)) :
    ∀ (st : CrawlState) (h v : Str),
      lookupHash st.contentHashes h = some v →
      lookupHash (runHashEvents st events).contentHashes h = some v := by
  induction events with
  | nil => exact fun st h v hv => hv
  | cons e rest ih =>
    intro st h v hv
    exact ih (recordContentHash st e.1 e.2) h v
      (lookupHash_record_persist st e.1 e.2 h v hv)

/-- A hash unbound at the start ends bound to the URL of the first
event that carries it. -/
theorem lookupHash_runHashEvents_first (events : List (Str × Str)) :
    ∀ (st : CrawlState) (h : Str),
      lookupHash st.contentHashes h = none →
      lookupHash (runHashEvents st events).contentHashes h =
        firstUrlFor events h := by
  induction events with
  | nil =>
    intro st h hn
    simpa [firstUrlFor] using hn
  | cons e rest ih =>
    intro st h hn
    by_cases he : e.1 = h
    · have h1 : lookupHash (recordContentHash st e.1 e.2).contentHashes h =
          some e.2 := by
        rw [(recordContentHash_unseen st e.1 e.2 (he ▸ hn)).1]
        exact he ▸ lookupHash_append_self st.contentHashes (e.1, e.2) (he ▸ hn)
      have h2 :
          lookupHash (runHashEvents (recordContentHash st e.1 e.2) rest).contentHashes h =
            some e.2 :=
        lookupHash_runHashEvents_persist rest _ h e.2 h1
      have h3 : firstUrlFor (e :: rest) h = some e.2 := by
        unfold firstUrlFor
        rw [List.find?_cons_of_pos _ (by simp [he])]
        rfl
      rw [h3]
      exact h2
    · have h1 : lookupHash (recordContentHash st e.1 e.2).contentHashes h =
          none := by
        cases hl : lookupHash st.contentHashes e.1 with
        | some o =>
          rw [(recordContentHash_seen st e.1 e.2 o hl).1]
          exact hn
        | none =>
          rw [(recordContentHash_unseen st e.1 e.2 hl).1]
          exact lookupHash_append_ne _ _ _ hn he
      have h3 : firstUrlFor (e :: rest) h = firstUrlFor rest h := by
        unfold firstUrlFor
        rw [List.find?_cons_of_neg _ (by simp [he])]
      rw [h3]
      exact ih _ h h1

/-- Provenance of every duplicate record produced by a fold: it either
pre-existed, or its hash was bound before its own event — by the
starting state or by an earlier event of the sequence — and it
references that first binder. -/
theorem dups_runHashEvents (events : List (Str × Str)) :
    ∀ (st : CrawlState) (u orig : Str),
      (u, orig) ∈ (runHashEvents st events).duplicateContentIssues →
      (u, orig) ∈ st.duplicateContentIssues ∨
      ∃ hh pre post, events = pre ++ (hh, u) :: post ∧
        (lookupHash st.contentHashes hh = some orig ∨
          (lookupHash st.contentHashes hh = none ∧
            firstUrlFor pre hh = some orig)) := by
  induction events with
  | nil => exact fun st u orig hm => Or.inl hm
  | cons e rest ih =>
    intro st u orig hm
    rcases ih (recordContentHash st e.1 e.2) u orig hm with
      hin | ⟨hh, pre, post, hrest, hcond⟩
    · cases hl : lookupHash st.contentHashes e.1 with
      | some o =>
        rw [(recordContentHash_seen st e.1 e.2 o hl).2] at hin
        rcases List.mem_append.mp hin with h1 | h2
        · exact Or.inl h1
        · have hpair : (u, orig) = (e.2, o) := List.mem_singleton.mp h2
          have hu : u = e.2 := congrArg Prod.fst hpair
          have ho : orig = o := congrArg Prod.snd hpair
          refine Or.inr ⟨e.1, [], rest, ?_, Or.inl (ho ▸ hl)⟩
          rw [hu]
          rfl
      | none =>
        rw [(recordContentHash_unseen st e.1 e.2 hl).2] at hin
        exact Or.inl hin
    · right
      rcases hcond with hsome | ⟨hnone, hfirst⟩
      · cases hl : lookupHash st.contentHashes hh with
        | some v =>
          have hv := lookupHash_record_persist st e.1 e.2 hh v hl
          rw [hv] at hsome
          have hvo : v = orig := Option.some.inj hsome
          exact ⟨hh, e :: pre, post, by rw [hrest]; rfl, Or.inl (hvo ▸ hl)⟩
        | none =>
          cases hle : lookupHash st.contentHashes e.1 with
          | some o =>
            rw [(recordContentHash_seen st e.1 e.2 o hle).1, hl] at hsome
            exact absurd hsome (by simp)
          | none =>
            rw [(recordContentHash_unseen st e.1 e.2 hle).1] at hsome
            by_cases he : e.1 = hh
            · have hself :
                  lookupHash (st.contentHashes ++ [(e.1, e.2)]) hh = some e.2 :=
                he ▸ lookupHash_append_self st.contentHashes (e.1, e.2) hle
              rw [hself] at hsome
              have horig : e.2 = orig := Option.some.inj hsome
              refine ⟨hh, e :: pre, post, by rw [hrest]; rfl, Or.inr ⟨hl, ?_⟩⟩
              unfold firstUrlFor
              rw [List.find?_cons_of_pos _ (by simp [he])]
              rw [← horig]
              rfl
            · rw [lookupHash_append_ne _ _ _ hl he] at hsome
              exact absurd hsome (by simp)
      · have hstnone : lookupHash st.contentHashes hh = none := by
          cases hl : lookupHash st.contentHashes hh with
          | none => rfl
          | some v =>
            have hv := lookupHash_record_persist st e.1 e.2 hh v hl
            rw [hv] at hnone
            exact absurd hnone (by simp)
        have hne : e.1 ≠ hh := by
          intro he
          have h1 := (recordContentHash_unseen st e.1 e.2 (he ▸ hstnone)).1
          have h2 :
              lookupHash (recordContentHash st e.1 e.2).contentHashes hh =
                some e.2 := by
            rw [h1]
            exact he ▸ lookupHash_append_self st.contentHashes (e.1, e.2)
              (he ▸ hstnone)
          rw [h2] at hnone
          exact absurd hnone (by simp)
        refine ⟨hh, e :: pre, post, by rw [hrest]; rfl, Or.inr ⟨hstnone, ?_⟩⟩
        unfold firstUrlFor at hfirst ⊢
        rw [List.find?_cons_of_neg _ (by simp [hne])]
        exact hfirst

/-- C6: from a fresh session, the fingerprint index maps each hash to
the URL of the first page event carrying it (never overwritten); every
duplicate record belongs to an event whose hash was already produced
by an earlier event, and references that first URL; and a page that is
the first to produce its hash never gets a duplicate record (page URLs
are pairwise distinct in a crawl, since each URL is admitted at most
once). -/
theorem c6_duplicate_content_authority (events : List (Str × Str))
    (h u x orig : Str) :
    lookupHash (runHashEvents emptyState events).contentHashes h =
      firstUrlFor events h ∧
    ((u, orig) ∈ (runHashEvents emptyState events).duplicateContentIssues →
      ∃ hh pre post, events = pre ++ (hh, u) :: post ∧
        firstUrlFor pre hh = some orig) ∧
    ((events.map Prod.snd).Nodup → firstUrlFor events h = some u →
      (u, x) ∉ (runHashEvents emptyState events).duplicateContentIssues) := by
  refine ⟨lookupHash_runHashEvents_first events emptyState h rfl, ?_, ?_⟩
  · intro hm
    rcases dups_runHashEvents events emptyState u orig hm with hin | ⟨hh, pre, post, hev, hcond⟩
    · exact absurd hin (List.not_mem_nil _)
    · rcases hcond with hsome | ⟨_, hfirst⟩
      · exact absurd hsome (by simp [lookupHash, emptyState])
      · exact ⟨hh, pre, post, hev, hfirst⟩
  · intro hnd hfirst hm
    rcases dups_runHashEvents events emptyState u x hm with hin | ⟨hh, pre, post, hev, hcond⟩
    · exact absurd hin (List.not_mem_nil _)
    rcases hcond with hsome | ⟨_, hpre⟩
    · exact absurd hsome (by simp [lookupHash, emptyState])
    -- `u` does not occur among the URLs of `pre` (Nodup of the url list)
    have hmap : events.map Prod.snd =
        pre.map Prod.snd ++ u :: post.map Prod.snd := by
      rw [hev]
      simp
    have hnotpre : u ∉ pre.map Prod.snd := by
      rw [hmap] at hnd
      intro hu
      exact (List.disjoint_of_nodup_append hnd) hu (List.mem_cons_self _ _)
    -- the first event for `h` is `u`'s own event, so `find?` on `pre`
    -- found nothing for `h`, and `h = hh`
    have hfind : (pre.find? (fun e => decide (e.1 = h))) = none := by
      cases hf : pre.find? (fun e => decide (e.1 = h)) with
      | none => rfl
      | some q =>
        have hq : q ∈ pre := List.mem_of_find?_eq_some hf
        have : firstUrlFor events h = some q.2 := by
          unfold firstUrlFor
          rw [hev, List.find?_append, hf]
          rfl
        rw [hfirst] at this
        have hqu : q.2 = u := (Option.some.inj this).symm
        exact absurd (hqu ▸ List.mem_map_of_mem Prod.snd hq) hnotpre
    have hhh : hh = h := by
      by_contra hneq
      have : firstUrlFor events h = firstUrlFor post h := by
        unfold firstUrlFor
        rw [hev, List.find?_append, hfind, Option.none_or,
          List.find?_cons_of_neg _ (by simp [hneq])]
      -- then the first event for `h` lies in `post`, whose URLs exclude `u`
      rw [hfirst] at this
      have hnotpost : u ∉ post.map Prod.snd := by
        rw [hmap] at hnd
        have := (List.nodup_append.mp hnd).2.1
        exact (List.nodup_cons.mp this).1
      obtain ⟨q, hq, hq2⟩ := Option.map_eq_some'.mp this.symm
      exact hnotpost (hq2 ▸ List.mem_map_of_mem Prod.snd
        (List.mem_of_find?_eq_some hq))
    -- but `pre` is supposed to contain an earlier event for `hh = h`
    rw [hhh] at hpre
    unfold firstUrlFor at hpre
    rw [hfind] at hpre
    exact absurd hpre (by simp)

/-- Witness for C6 at concrete inputs: two pages with the same hash —
the index maps the hash to the first page, the duplicate record cites
the first page, and the first page gets no duplicate record. -/
theorem c6_duplicate_content_authority_witness :
    (lookupHash
        (runHashEvents emptyState
          [("h1".toList, "https://e.com/x".toList),
           ("h1".toList, "https://e.com/y".toList)]).contentHashes
        "h1".toList =
      firstUrlFor
        [("h1".toList, "https://e.com/x".toList),
         ("h1".toList, "https://e.com/y".toList)] "h1".toList) ∧
    ([("h1".toList, "https://e.com/x".toList),
      ("h1".toList, "https://e.com/y".toList)].map Prod.snd).Nodup ∧
    firstUrlFor
        [("h1".toList, "https://e.com/x".toList),
         ("h1".toList, "https://e.com/y".toList)] "h1".toList =
      some "https://e.com/x".toList ∧
    ("https://e.com/x".toList, "https://e.com/y".toList) ∉
      (runHashEvents emptyState
        [("h1".toList, "https://e.com/x".toList),
         ("h1".toList, "https://e.com/y".toList)]).duplicateContentIssues :=
  ⟨(c6_duplicate_content_authority
      [("h1".toList, "https://e.com/x".toList),
       ("h1".toList, "https://e.com/y".toList)]
      "h1".toList "https://e.com/x".toList "https://e.com/y".toList
      "https://e.com/x".toList).1,
   by decide, by decide,
   (c6_duplicate_content_authority
      [("h1".toList, "https://e.com/x".toList),
       ("h1".toList, "https://e.com/y".toList)]
      "h1".toList "https://e.com/x".toList "https://e.com/y".toList
      "https://e.com/x".toList).2.2 (by decide) (by decide)⟩

/-! ### C9 -/

theorem isPrefixOf_append_self (l t : List Char) :
    l.isPrefixOf (l ++ t) = true := by
  rw [List.isPrefixOf_iff_prefix]
  exact List.prefix_append l t

/-- A string shaped `http://...` is never matched by the `https://`
prefix test (the 5th characters differ). -/
theorem httpsPrefix_not_prefix_http (x : List Char) :
    httpsPrefix.isPrefixOf (httpPrefix ++ x) = false := by
  simp [httpsPrefix, httpPrefix, List.isPrefixOf]

theorem dropWhile_shape {α} (p : α → Bool) (l : List α) :
    l.dropWhile p = [] ∨ ∃ a t, l.dropWhile p = a :: t ∧ p a = false := by
  induction l with
  | nil => exact Or.inl rfl
  | cons a t ih =>
    rw [List.dropWhile_cons]
    by_cases hpa : p a
    · simpa [hpa] using ih
    · exact Or.inr ⟨a, t, by simp [hpa], by simpa using hpa⟩

theorem takeWhile_append_all {α} (q : α → Bool) (l₁ l₂ : List α)
    (h1 : ∀ c ∈ l₁, q c = true) :
    (l₁ ++ l₂).takeWhile q = l₁ ++ l₂.takeWhile q ∧
    (l₁ ++ l₂).dropWhile q = l₂.dropWhile q := by
  induction l₁ with
  | nil => exact ⟨rfl, rfl⟩
  | cons a t ih =>
    have ha : q a = true := h1 a (List.mem_cons_self a t)
    have iht := ih (fun c hc => h1 c (List.mem_cons_of_mem a hc))
    constructor
    · rw [List.cons_append, List.takeWhile_cons, if_pos ha, iht.1, List.cons_append]
    · rw [List.cons_append, List.dropWhile_cons, if_pos ha, iht.2]

/-- Inversion of a successful `parseHttpUrl`: the host has no slash and
is non-empty, the path is empty or starts with a slash, and the scheme
is one of the two literals. -/
theorem parseHttpUrl_inv (s sc h p : Str)
    (hp : parseHttpUrl s = some (sc, h, p)) :
    (∀ c ∈ h, (c ≠ '/' : Bool) = true) ∧ h ≠ [] ∧
    (p = [] ∨ ∃ t, p = '/' :: t) ∧
    (sc = httpsScheme ∨ sc = httpScheme) := by
  unfold parseHttpUrl at hp
  split at hp
  case isTrue =>
    unfold mkParse at hp
    dsimp only at hp
    split at hp
    case isTrue => exact Option.noConfusion hp
    case isFalse hne =>
      have heq := Option.some.inj hp
      have hsc : httpsScheme = sc := congrArg (fun x => x.1) heq
      have hho : (s.drop 8).takeWhile (fun c => c ≠ '/') = h :=
        congrArg (fun x => x.2.1) heq
      have hpa : (s.drop 8).dropWhile (fun c => c ≠ '/') = p :=
        congrArg (fun x => x.2.2) heq
      refine ⟨?_, ?_, ?_, Or.inl hsc.symm⟩
      · intro c hc
        rw [← hho] at hc
        simpa using List.mem_takeWhile_imp hc
      · rw [← hho]; exact hne
      · rcases dropWhile_shape (fun c => (c ≠ '/' : Bool)) (s.drop 8) with
          hsh | ⟨a, t, hsh, hfa⟩
        · left; rw [← hpa, hsh]
        · right
          refine ⟨t, ?_⟩
          have ha : a = '/' := by simpa using hfa
          rw [← hpa, hsh, ha]
  case isFalse =>
    split at hp
    case isTrue =>
      unfold mkParse at hp
      dsimp only at hp
      split at hp
      case isTrue => exact Option.noConfusion hp
      case isFalse hne =>
        have heq := Option.some.inj hp
        have hsc : httpScheme = sc := congrArg (fun x => x.1) heq
        have hho : (s.drop 7).takeWhile (fun c => c ≠ '/') = h :=
          congrArg (fun x => x.2.1) heq
        have hpa : (s.drop 7).dropWhile (fun c => c ≠ '/') = p :=
          congrArg (fun x => x.2.2) heq
        refine ⟨?_, ?_, ?_, Or.inr hsc.symm⟩
        · intro c hc
          rw [← hho] at hc
          simpa using List.mem_takeWhile_imp hc
        · rw [← hho]; exact hne
        · rcases dropWhile_shape (fun c => (c ≠ '/' : Bool)) (s.drop 7) with
            hsh | ⟨a, t, hsh, hfa⟩
          · left; rw [← hpa, hsh]
          · right
            refine ⟨t, ?_⟩
            have ha : a = '/' := by simpa using hfa
            rw [← hpa, hsh, ha]
    case isFalse => exact Option.noConfusion hp

/-- Re-parsing a serialized URL recovers the same components (with the
canonical `/` for an empty path). -/
theorem parseHttpUrl_serializeUrl (sc h p : Str)
    (hh : ∀ c ∈ h, (c ≠ '/' : Bool) = true) (hne : h ≠ [])
    (hpshape : p = [] ∨ ∃ t, p = '/' :: t)
    (hsc : sc = httpsScheme ∨ sc = httpScheme) :
    parseHttpUrl (serializeUrl sc h p) =
      some (sc, h, if p = [] then ['/'] else p) := by
  have hp' : ∃ t, (if p = [] then ['/'] else p) = '/' :: t := by
    rcases hpshape with hpe | ⟨t, hpt⟩
    · exact ⟨[], by rw [if_pos hpe]⟩
    · exact ⟨t, by rw [if_neg (by rw [hpt]; exact List.cons_ne_nil _ _), hpt]⟩
  obtain ⟨pt, hpt⟩ := hp'
  have hsplit :
      (h ++ (if p = [] then ['/'] else p)).takeWhile (fun c => c ≠ '/') = h ∧
      (h ++ (if p = [] then ['/'] else p)).dropWhile (fun c => c ≠ '/') =
        (if p = [] then ['/'] else p) := by
    have := takeWhile_append_all (fun c => (c ≠ '/' : Bool)) h
      (if p = [] then ['/'] else p) hh
    constructor
    · rw [this.1, hpt, List.takeWhile_cons]
      simp
    · rw [this.2, hpt, List.dropWhile_cons]
      simp
  rcases hsc with hsc | hsc <;> subst hsc
  · have hser : serializeUrl httpsScheme h p =
        httpsPrefix ++ (h ++ (if p = [] then ['/'] else p)) := by
      unfold serializeUrl httpsPrefix httpsScheme
      simp
    rw [hser]
    unfold parseHttpUrl
    rw [if_pos (isPrefixOf_append_self httpsPrefix _)]
    have hdrop : (httpsPrefix ++ (h ++ (if p = [] then ['/'] else p))).drop 8 =
        h ++ (if p = [] then ['/'] else p) :=
      List.drop_left httpsPrefix _
    rw [hdrop]
    unfold mkParse
    dsimp only
    rw [hsplit.1, hsplit.2, if_neg hne]
  · have hser : serializeUrl httpScheme h p =
        httpPrefix ++ (h ++ (if p = [] then ['/'] else p)) := by
      unfold serializeUrl httpPrefix httpScheme
      simp
    rw [hser]
    unfold parseHttpUrl
    rw [if_neg (by rw [httpsPrefix_not_prefix_http]; exact Bool.false_ne_true)]
    rw [if_pos (isPrefixOf_append_self httpPrefix _)]
    have hdrop : (httpPrefix ++ (h ++ (if p = [] then ['/'] else p))).drop 7 =
        h ++ (if p = [] then ['/'] else p) :=
      List.drop_left httpPrefix _
    rw [hdrop]
    unfold mkParse
    dsimp only
    rw [hsplit.1, hsplit.2, if_neg hne]

/-- C9: `normalizeUrl` is idempotent — `new URL(u).href` re-parses to
the same serialization, and a parse failure returns the input, which
then fails to parse again. -/
theorem c9_normalizeUrl_idempotent (s : Str) :
    normalizeUrl (normalizeUrl s) = normalizeUrl s := by
  cases hp : parseHttpUrl s with
  | none =>
    have h1 : normalizeUrl s = s := by
      unfold normalizeUrl
      rw [hp]
    rw [h1]
    exact h1
  | some t =>
    obtain ⟨sc, h, p⟩ := t
    obtain ⟨hinv1, hinv2, hinv3, hinv4⟩ := parseHttpUrl_inv s sc h p hp
    have h1 : normalizeUrl s = serializeUrl sc h p := by
      unfold normalizeUrl
      rw [hp]
    rw [h1]
    unfold normalizeUrl
    rw [parseHttpUrl_serializeUrl sc h p hinv1 hinv2 hinv3 hinv4]
    unfold serializeUrl
    by_cases hpe : p = [] <;> simp [hpe]

/-! ### C8 -/

theorem mem_trimStr (s : Str) (c : Char) (h : c ∈ trimStr s) : c ∈ s := by
  unfold trimStr at h
  have h1 := List.mem_reverse.mp h
  have h2 := (List.dropWhile_suffix isJsSpace).subset h1
  have h3 := List.mem_reverse.mp h2
  exact (List.dropWhile_suffix isJsSpace).subset h3

/-- The `split("#")[0]` step removes every fragment character. -/
theorem hash_not_mem_cleanHref (href : Str) : '#' ∉ cleanHref href := by
  intro h
  have h1 := mem_trimStr _ _ h
  have h2 := List.mem_takeWhile_imp h1
  simp at h2

theorem mem_cleanHref (href : Str) (c : Char) (h : c ∈ cleanHref href) :
    c ∈ href := by
  have h1 := mem_trimStr _ _ h
  exact (List.takeWhile_prefix _).subset h1

theorem mem_dirOfPath (p : Str) (c : Char) (h : c ∈ dirOfPath p) :
    c ∈ p ∨ c = '/' := by
  unfold dirOfPath at h
  dsimp only at h
  split at h
  · exact Or.inr (List.mem_singleton.mp h)
  · left
    have h1 := List.mem_reverse.mp h
    have h2 := (List.dropWhile_suffix _).subset h1
    exact List.mem_reverse.mp h2

/-- The host and path components of a parsed URL are characters of the
input. -/
theorem parseHttpUrl_subset (s sc h p : Str)
    (hp : parseHttpUrl s = some (sc, h, p)) :
    (∀ c ∈ h, c ∈ s) ∧ (∀ c ∈ p, c ∈ s) := by
  unfold parseHttpUrl at hp
  split at hp
  case isTrue =>
    unfold mkParse at hp
    dsimp only at hp
    split at hp
    case isTrue => exact Option.noConfusion hp
    case isFalse =>
      have heq := Option.some.inj hp
      have hho : (s.drop 8).takeWhile (fun c => c ≠ '/') = h :=
        congrArg (fun x => x.2.1) heq
      have hpa : (s.drop 8).dropWhile (fun c => c ≠ '/') = p :=
        congrArg (fun x => x.2.2) heq
      constructor
      · intro c hc
        rw [← hho] at hc
        exact List.drop_subset 8 s ((List.takeWhile_prefix _).subset hc)
      · intro c hc
        rw [← hpa] at hc
        exact List.drop_subset 8 s ((List.dropWhile_suffix _).subset hc)
  case isFalse =>
    split at hp
    case isTrue =>
      unfold mkParse at hp
      dsimp only at hp
      split at hp
      case isTrue => exact Option.noConfusion hp
      case isFalse =>
        have heq := Option.some.inj hp
        have hho : (s.drop 7).takeWhile (fun c => c ≠ '/') = h :=
          congrArg (fun x => x.2.1) heq
        have hpa : (s.drop 7).dropWhile (fun c => c ≠ '/') = p :=
          congrArg (fun x => x.2.2) heq
        constructor
        · intro c hc
          rw [← hho] at hc
          exact List.drop_subset 7 s ((List.takeWhile_prefix _).subset hc)
        · intro c hc
          rw [← hpa] at hc
          exact List.drop_subset 7 s ((List.dropWhile_suffix _).subset hc)
    case isFalse => exact Option.noConfusion hp

/-- Resolution never introduces a `#` when neither the (already
fragment-stripped) reference nor the base contains one. -/
theorem hash_not_mem_resolve (cleaned base fh : Str) (hb : '#' ∉ base)
    (hc : '#' ∉ cleaned) (h : resolveAgainstBase cleaned base = some fh) :
    '#' ∉ fh := by
  intro hmem
  unfold resolveAgainstBase at h
  cases hp : parseHttpUrl base with
  | none => rw [hp] at h; exact Option.noConfusion h
  | some t =>
    obtain ⟨sc, h0, p0⟩ := t
    have hsub := parseHttpUrl_subset base sc h0 p0 hp
    have hscheme := (parseHttpUrl_inv base sc h0 p0 hp).2.2.2
    have hscnot : '#' ∉ sc := by
      rcases hscheme with hs | hs <;> subst hs <;> decide
    have hh0 : '#' ∉ h0 := fun hx => hb (hsub.1 _ hx)
    have hp0 : '#' ∉ p0 := fun hx => hb (hsub.2 _ hx)
    rw [hp] at h
    dsimp only at h
    split at h
    · exact hc ((Option.some.inj h) ▸ hmem)
    · split at h
      · rw [← Option.some.inj h] at hmem
        rcases List.mem_append.mp hmem with h1 | h1
        · rcases List.mem_append.mp h1 with h2 | h2
          · exact hscnot h2
          · simp at h2
        · exact hc h1
      · split at h
        · rw [← Option.some.inj h] at hmem
          rcases List.mem_append.mp hmem with h1 | h1
          · rcases List.mem_append.mp h1 with h2 | h2
            · rcases List.mem_append.mp h2 with h3 | h3
              · exact hscnot h3
              · simp at h3
            · exact hh0 h2
          · exact hc h1
        · rw [← Option.some.inj h] at hmem
          rcases List.mem_append.mp hmem with h1 | h1
          · rcases List.mem_append.mp h1 with h2 | h2
            · rcases List.mem_append.mp h2 with h3 | h3
              · rcases List.mem_append.mp h3 with h4 | h4
                · exact hscnot h4
                · simp at h4
              · exact hh0 h3
            · rcases mem_dirOfPath p0 '#' h2 with h3 | h3
              · exact hp0 h3
              · exact absurd h3 (by decide)
          · exact hc h1

/-- C8 counterexample for the claim as stated: `normalizeUrl`
(`new URL(url).href`) does not strip fragments — the fragment survives
normalization (stripping happens separately, in the link-processing
loop, before resolution). -/
theorem c8_normalization_counterexample :
    normalizeUrl "https://a.com/p#f".toList = "https://a.com/p#f".toList ∧
    '#' ∈ "https://a.com/p#f".toList := by decide

/-- C8 (amended): in the link pipeline, an href that cleans to the
empty string or to a `mailto:`/`tel:`/`javascript:`/`data:`/`blob:`
scheme yields no target and is never enqueued (the state and queue are
untouched); an href whose resolution against the base fails likewise
yields no target and is never enqueued; and every target the pipeline
does produce is fragment-free, because `split("#")[0]` runs before
resolution (given a fragment-free base).  `normalizeUrl` itself strips
no fragment. -/
theorem c8_link_normalization (st : CrawlState) (q : List Str)
    (cur base bd href : Str) :
    ((cleanHref href = [] ∨ isSkippedScheme (cleanHref href)) →
      linkTarget href base = none ∧
      processLink st q cur base bd href = (st, q)) ∧
    (¬("http".toList.isPrefixOf (cleanHref href)) →
      resolveAgainstBase (cleanHref href) base = none →
      linkTarget href base = none ∧
      processLink st q cur base bd href = (st, q)) ∧
    ('#' ∉ base → ∀ fh, linkTarget href base = some fh → '#' ∉ fh) := by
  refine ⟨?_, ?_, ?_⟩
  · intro h
    have ht : linkTarget href base = none := by
      unfold linkTarget
      rw [if_pos h]
    refine ⟨ht, ?_⟩
    unfold processLink
    rw [ht]
  · intro hnp hres
    have ht : linkTarget href base = none := by
      unfold linkTarget
      dsimp only
      split
      · rfl
      · exact hres
    refine ⟨ht, ?_⟩
    unfold processLink
    rw [ht]
  · intro hb fh hfh
    unfold linkTarget at hfh
    dsimp only at hfh
    split at hfh
    · exact Option.noConfusion hfh
    · split at hfh
      · rw [← Option.some.inj hfh]
        exact hash_not_mem_cleanHref href
      · exact hash_not_mem_resolve _ _ _ hb (hash_not_mem_cleanHref href) hfh

/-- Witness for C8 at concrete inputs: a `mailto:` href is skipped with
the session untouched; a relative href resolves to a fragment-free
absolute URL. -/
theorem c8_link_normalization_witness :
    ((cleanHref "mailto:x@y.com".toList = [] ∨
        isSkippedScheme (cleanHref "mailto:x@y.com".toList)) ∧
      linkTarget "mailto:x@y.com".toList "https://a.com/".toList = none ∧
      processLink emptyState [] "https://a.com/".toList
        "https://a.com/".toList "https://a.com".toList
        "mailto:x@y.com".toList = (emptyState, [])) ∧
    ('#' ∉ "https://a.com/".toList ∧
      linkTarget "p#frag".toList "https://a.com/".toList =
        some "https://a.com/p".toList ∧
      '#' ∉ "https://a.com/p".toList) :=
  ⟨⟨by decide,
    (c8_link_normalization emptyState [] "https://a.com/".toList
        "https://a.com/".toList "https://a.com".toList
        "mailto:x@y.com".toList).1 (by decide)⟩,
   ⟨by decide, by decide,
    (c8_link_normalization emptyState [] "https://a.com/".toList
        "https://a.com/".toList "https://a.com".toList
        "p#frag".toList).2.2 (by decide) "https://a.com/p".toList
      (by decide)⟩⟩

/-! ### C5 -/

/-- C5 counterexample for the claim as stated: with seed
`https://a.com/` the link `https://a.community/page` has a different
origin, yet the code's string-prefix test (`startsWith(baseDomain)`
with `baseDomain = "https://a.com"`) classifies it as internal — it is
pushed onto the pending queue and no external-link record is written
for it. -/
theorem c5_same_origin_counterexample :
    (processLink emptyState [] "https://a.com/".toList
        "https://a.com/".toList "https://a.com".toList
        "https://a.community/page".toList).2 =
      ["https://a.community/page".toList] ∧
    (processLink emptyState [] "https://a.com/".toList
        "https://a.com/".toList "https://a.com".toList
        "https://a.community/page".toList).1.externalLinks = [] ∧
    urlOrigin "https://a.community/page".toList ≠
      urlOrigin "https://a.com/".toList := by decide

/-- C5 (amended): the `links.forEach` classification is by string
prefix, not by origin — a discovered link whose target does not
prefix-match `base` or `baseDomain` is appended to the external-links
output and never enqueued, while a prefix-matching target (which can
have a different origin, as the counterexample shows) is never added
to the external links and is at most enqueued. -/
theorem c5_prefix_filtering (st : CrawlState) (q : List Str)
    (cur base bd href fh : Str) (hfh : linkTarget href base = some fh) :
    (¬(base.isPrefixOf fh ∨ bd.isPrefixOf fh) →
      (processLink st q cur base bd href).1.externalLinks =
        st.externalLinks ++ [(cur, fh)] ∧
      (processLink st q cur base bd href).2 = q) ∧
    ((base.isPrefixOf fh ∨ bd.isPrefixOf fh) →
      (processLink st q cur base bd href).1 = st ∧
      ((processLink st q cur base bd href).2 = q ∨
        (processLink st q cur base bd href).2 = q ++ [fh])) := by
  constructor
  · intro h
    unfold processLink
    rw [hfh]
    dsimp only
    rw [if_neg h]
    exact ⟨rfl, rfl⟩
  · intro h
    unfold processLink
    rw [hfh]
    dsimp only
    rw [if_pos h]
    constructor
    · split
      · split
        · rfl
        · rfl
      · rfl
    · split
      · split
        · right; rfl
        · left; rfl
      · left; rfl

/-- Witness for C5 at concrete inputs: an off-site link
(`https://other.org/x`) goes to the external links and not the queue;
an on-site link (`https://a.com/sub`) is enqueued and not recorded
external. -/
theorem c5_prefix_filtering_witness :
    (linkTarget "https://other.org/x".toList "https://a.com/".toList =
        some "https://other.org/x".toList ∧
      ¬("https://a.com/".toList.isPrefixOf "https://other.org/x".toList ∨
          "https://a.com".toList.isPrefixOf "https://other.org/x".toList) ∧
      (processLink emptyState [] "https://a.com/".toList
          "https://a.com/".toList "https://a.com".toList
          "https://other.org/x".toList).1.externalLinks =
        emptyState.externalLinks ++
          [("https://a.com/".toList, "https://other.org/x".toList)] ∧
      (processLink emptyState [] "https://a.com/".toList
          "https://a.com/".toList "https://a.com".toList
          "https://other.org/x".toList).2 = []) ∧
    (linkTarget "https://a.com/sub".toList "https://a.com/".toList =
        some "https://a.com/sub".toList ∧
      ("https://a.com/".toList.isPrefixOf "https://a.com/sub".toList ∨
          "https://a.com".toList.isPrefixOf "https://a.com/sub".toList) ∧
      (processLink emptyState [] "https://a.com/".toList
          "https://a.com/".toList "https://a.com".toList
          "https://a.com/sub".toList).1 = emptyState ∧
      ((processLink emptyState [] "https://a.com/".toList
          "https://a.com/".toList "https://a.com".toList
          "https://a.com/sub".toList).2 = [] ∨
        (processLink emptyState [] "https://a.com/".toList
          "https://a.com/".toList "https://a.com".toList
          "https://a.com/sub".toList).2 = [] ++ ["https://a.com/sub".toList])) :=
  ⟨⟨by decide, by decide,
    (c5_prefix_filtering emptyState [] "https://a.com/".toList
        "https://a.com/".toList "https://a.com".toList
        "https://other.org/x".toList "https://other.org/x".toList
        (by decide)).1 (by decide)⟩,
   ⟨by decide, by decide,
    (c5_prefix_filtering emptyState [] "https://a.com/".toList
        "https://a.com/".toList "https://a.com".toList
        "https://a.com/sub".toList "https://a.com/sub".toList
        (by decide)).2 (by decide)⟩⟩

/-! ### C7 -/

theorem length_filter_mono {α} (p q : α → Bool) (l : List α)
    (h : ∀ a, p a = true → q a = true) :
    (l.filter p).length ≤ (l.filter q).length := by
  induction l with
  | nil => exact Nat.le_refl 0
  | cons a t ih =>
    rw [List.filter_cons, List.filter_cons]
    by_cases hpa : p a = true
    · rw [if_pos hpa, if_pos (h a hpa)]
      simpa using ih
    · rw [if_neg hpa]
      by_cases hqa : q a = true
      · rw [if_pos hqa]
        exact Nat.le_succ_of_le ih
      · rw [if_neg hqa]
        exact ih

theorem length_filter_lt_of_mem {α} (p q : α → Bool) (l : List α)
    (himp : ∀ a, p a = true → q a = true) (u : α) (hu : u ∈ l)
    (hq : q u = true) (hp : p u = false) :
    (l.filter p).length < (l.filter q).length := by
  induction l with
  | nil => cases hu
  | cons a t ih =>
    rw [List.filter_cons, List.filter_cons]
    rcases List.mem_cons.mp hu with rfl | hut
    · rw [if_pos hq, if_neg (by simp [hp])]
      exact Nat.lt_succ_of_le (length_filter_mono p q t himp)
    · by_cases hpa : p a = true
      · rw [if_pos hpa, if_pos (himp a hpa)]
        simpa using ih hut
      · rw [if_neg hpa]
        by_cases hqa : q a = true
        · rw [if_pos hqa]
          exact Nat.lt_succ_of_lt (ih hut)
        · rw [if_neg hqa]
          exact ih hut

/-- Growing the seen-set cannot increase the number of unseen sitemap
URLs. -/
theorem countUnseen_mono (web : SitemapWeb) (s s' : List Str)
    (h : s ⊆ s') : countUnseen web s' ≤ countUnseen web s := by
  unfold countUnseen
  apply length_filter_mono
  intro a ha
  simp only [decide_eq_true_eq] at ha ⊢
  exact fun hmem => ha (h hmem)

/-- Marking a known, previously unseen sitemap URL seen strictly
decreases the unseen count. -/
theorem countUnseen_cons_lt (web : SitemapWeb) (u : Str) (seen : List Str)
    (hk : u ∈ sitemapKeys web) (hu : u ∉ seen) :
    countUnseen web (u :: seen) < countUnseen web seen := by
  unfold countUnseen
  refine length_filter_lt_of_mem _ _ _ ?_ u hk ?_ ?_
  · intro a ha
    simp only [decide_eq_true_eq, List.mem_cons] at ha ⊢
    exact fun hmem => ha (Or.inr hmem)
  · simpa using hu
  · simp

theorem mem_keys_of_fetch (web : SitemapWeb) (u : Str) (doc : SitemapDoc)
    (h : fetchSitemap web u = some doc) : u ∈ sitemapKeys web := by
  unfold fetchSitemap at h
  obtain ⟨q, hq, _⟩ := Option.map_eq_some'.mp h
  have hqm := List.mem_of_find?_eq_some hq
  have hq1 : q.1 = u := by simpa using List.find?_some hq
  unfold sitemapKeys
  exact hq1 ▸ List.mem_map_of_mem (fun p => p.1) hqm

/-- The resolver only ever adds to the seen-set. -/
theorem seen_sub_getSitemapUrlsF (fuel : Nat) :
    ∀ (web : SitemapWeb) (u : Str) (seen : List Str),
      seen ⊆ (getSitemapUrlsF fuel web u seen).2 := by
  induction fuel with
  | zero => exact fun web u seen a ha => ha
  | succ fuel ih =>
    intro web u seen
    by_cases hs : u ∈ seen
    · have h1 : getSitemapUrlsF (fuel + 1) web u seen = ([], seen) := by
        simp [getSitemapUrlsF, hs]
      rw [h1]
      exact fun a ha => ha
    · have hsub : ∀ (cs : List Str) (acc : List Str × List Str),
          acc.2 ⊆ (resolveChildrenF fuel web cs acc).2 := by
        intro cs
        induction cs with
        | nil => exact fun acc a ha => ha
        | cons c rest ihc =>
          intro acc a ha
          exact ihc (acc.1 ++ (getSitemapUrlsF fuel web c acc.2).1,
            (getSitemapUrlsF fuel web c acc.2).2) (ih web c acc.2 ha)
      cases hf : fetchSitemap web u with
      | none =>
        have h1 : getSitemapUrlsF (fuel + 1) web u seen = ([], u :: seen) := by
          simp [getSitemapUrlsF, hs, hf]
        rw [h1]
        exact List.subset_cons_self u seen
      | some doc =>
        cases doc with
        | urlset locs =>
          have h1 : getSitemapUrlsF (fuel + 1) web u seen = (locs, u :: seen) := by
            simp [getSitemapUrlsF, hs, hf]
          rw [h1]
          exact List.subset_cons_self u seen
        | other =>
          have h1 : getSitemapUrlsF (fuel + 1) web u seen = ([], u :: seen) := by
            simp [getSitemapUrlsF, hs, hf]
          rw [h1]
          exact List.subset_cons_self u seen
        | sitemapindex children =>
          have h1 : getSitemapUrlsF (fuel + 1) web u seen =
              resolveChildrenF fuel web children ([], u :: seen) := by
            simp [getSitemapUrlsF, hs, hf, resolveChildrenF]
          rw [h1]
          exact fun a ha =>
            hsub children ([], u :: seen) (List.mem_cons_of_mem u ha)

/-- One fuel step does not change the result once the fuel exceeds the
number of unseen sitemap URLs (for the resolver and its child loop). -/
theorem sitemap_fuel_step (f : Nat) :
    (∀ (web : SitemapWeb) (u : Str) (seen : List Str),
      countUnseen web seen < f →
      getSitemapUrlsF (f + 1) web u seen = getSitemapUrlsF f web u seen) ∧
    (∀ (web : SitemapWeb) (cs : List Str) (acc : List Str × List Str),
      countUnseen web acc.2 < f →
      resolveChildrenF (f + 1) web cs acc = resolveChildrenF f web cs acc) := by
  induction f with
  | zero =>
    exact ⟨fun _ _ _ h => absurd h (Nat.not_lt_zero _),
           fun _ _ _ h => absurd h (Nat.not_lt_zero _)⟩
  | succ f ih =>
    have hP : ∀ (web : SitemapWeb) (u : Str) (seen : List Str),
        countUnseen web seen < f + 1 →
        getSitemapUrlsF (f + 1 + 1) web u seen =
          getSitemapUrlsF (f + 1) web u seen := by
      intro web u seen hcount
      by_cases hs : u ∈ seen
      · simp [getSitemapUrlsF, hs]
      · cases hf : fetchSitemap web u with
        | none => simp [getSitemapUrlsF, hs, hf]
        | some doc =>
          cases doc with
          | urlset locs => simp [getSitemapUrlsF, hs, hf]
          | other => simp [getSitemapUrlsF, hs, hf]
          | sitemapindex children =>
            have hL : getSitemapUrlsF (f + 1 + 1) web u seen =
                resolveChildrenF (f + 1) web children ([], u :: seen) := by
              simp [getSitemapUrlsF, hs, hf, resolveChildrenF]
            have hR : getSitemapUrlsF (f + 1) web u seen =
                resolveChildrenF f web children ([], u :: seen) := by
              simp [getSitemapUrlsF, hs, hf, resolveChildrenF]
            rw [hL, hR]
            apply ih.2
            have hk := mem_keys_of_fetch web u _ hf
            have hlt := countUnseen_cons_lt web u seen hk hs
            show countUnseen web (u :: seen) < f
            omega
    refine ⟨hP, ?_⟩
    intro web cs
    induction cs with
    | nil => exact fun acc _ => rfl
    | cons c rest ihc =>
      intro acc hcount
      have h1 : getSitemapUrlsF (f + 1 + 1) web c acc.2 =
          getSitemapUrlsF (f + 1) web c acc.2 := hP web c acc.2 hcount
      have e1 : resolveChildrenF (f + 1 + 1) web (c :: rest) acc =
          resolveChildrenF (f + 1 + 1) web rest
            (acc.1 ++ (getSitemapUrlsF (f + 1 + 1) web c acc.2).1,
             (getSitemapUrlsF (f + 1 + 1) web c acc.2).2) := rfl
      have e2 : resolveChildrenF (f + 1) web (c :: rest) acc =
          resolveChildrenF (f + 1) web rest
            (acc.1 ++ (getSitemapUrlsF (f + 1) web c acc.2).1,
             (getSitemapUrlsF (f + 1) web c acc.2).2) := rfl
      rw [e1, e2, h1]
      apply ihc
      have hsub := seen_sub_getSitemapUrlsF (f + 1) web c acc.2
      have hmono := countUnseen_mono web acc.2
        (getSitemapUrlsF (f + 1) web c acc.2).2 hsub
      show countUnseen web (getSitemapUrlsF (f + 1) web c acc.2).2 < f + 1
      omega

theorem getSitemapUrlsF_add (web : SitemapWeb) (u : Str) (seen : List Str)
    (f k : Nat) (h : countUnseen web seen < f) :
    getSitemapUrlsF (f + k) web u seen = getSitemapUrlsF f web u seen := by
  induction k with
  | zero => rfl
  | succ k ihk =>
    have h2 : countUnseen web seen < f + k :=
      Nat.lt_of_lt_of_le h (Nat.le_add_right f k)
    calc getSitemapUrlsF (f + (k + 1)) web u seen
        = getSitemapUrlsF (f + k + 1) web u seen := rfl
      _ = getSitemapUrlsF (f + k) web u seen :=
          (sitemap_fuel_step (f + k)).1 web u seen h2
      _ = getSitemapUrlsF f web u seen := ihk

/-- Any two fuels above the unseen count give the same resolution:
the recursion terminates with a depth bounded by the number of known
sitemap URLs. -/
theorem getSitemapUrlsF_fuel_independent (web : SitemapWeb) (u : Str)
    (seen : List Str) (f₁ f₂ : Nat) (h₁ : countUnseen web seen < f₁)
    (h₂ : countUnseen web seen < f₂) :
    getSitemapUrlsF f₁ web u seen = getSitemapUrlsF f₂ web u seen := by
  rcases Nat.le_total f₁ f₂ with h | h
  · obtain ⟨k, rfl⟩ := Nat.exists_eq_add_of_le h
    exact (getSitemapUrlsF_add web u seen f₁ k h₁).symm
  · obtain ⟨k, rfl⟩ := Nat.exists_eq_add_of_le h
    exact getSitemapUrlsF_add web u seen f₂ k h₂

/-- C7: sitemap resolution terminates on every input — a sitemap URL
already in the seen-set yields `[]` immediately instead of recursing,
and the result is independent of the recursion-depth bound once it
exceeds the number of known-but-unseen sitemap URLs (so the implicit
recursion of the source is well defined); on the cyclic web where
sitemap `a` references `b` and `c`, `b` references `a` back, and `c`
is a urlset, resolution returns exactly `c`'s leaf URLs — the union of
leaves reachable before the cycle closes. -/
theorem c7_sitemap_termination :
    (∀ (web : SitemapWeb) (u : Str) (seen : List Str) (fuel : Nat),
      u ∈ seen → getSitemapUrlsF fuel web u seen = ([], seen)) ∧
    (∀ (web : SitemapWeb) (u : Str) (seen : List Str) (f₁ f₂ : Nat),
      countUnseen web seen < f₁ → countUnseen web seen < f₂ →
      getSitemapUrlsF f₁ web u seen = getSitemapUrlsF f₂ web u seen) ∧
    getSitemapUrls
      [(['a'], SitemapDoc.sitemapindex [['b'], ['c']]),
       (['b'], SitemapDoc.sitemapindex [['a']]),
       (['c'], SitemapDoc.urlset [['u'], ['v']])] ['a'] =
      [['u'], ['v']] := by
  refine ⟨?_, getSitemapUrlsF_fuel_independent, by decide⟩
  intro web u seen fuel hs
  cases fuel with
  | zero => rfl
  | succ fuel => simp [getSitemapUrlsF, hs]

/-- Witness for C7 at concrete inputs: a seen sitemap URL
short-circuits to `[]`, and two different sufficient fuels agree on
the cyclic web. -/
theorem c7_sitemap_termination_witness :
    getSitemapUrlsF 3 [] ['a'] [['a']] = ([], [['a']]) ∧
    getSitemapUrlsF 4
        [(['a'], SitemapDoc.sitemapindex [['b'], ['c']]),
         (['b'], SitemapDoc.sitemapindex [['a']]),
         (['c'], SitemapDoc.urlset [['u'], ['v']])] ['a'] [] =
      getSitemapUrlsF 7
        [(['a'], SitemapDoc.sitemapindex [['b'], ['c']]),
         (['b'], SitemapDoc.sitemapindex [['a']]),
         (['c'], SitemapDoc.urlset [['u'], ['v']])] ['a'] [] :=
  ⟨c7_sitemap_termination.1 [] ['a'] [['a']] 3 (by decide),
   c7_sitemap_termination.2.1
     [(['a'], SitemapDoc.sitemapindex [['b'], ['c']]),
      (['b'], SitemapDoc.sitemapindex [['a']]),
      (['c'], SitemapDoc.urlset [['u'], ['v']])] ['a'] [] 4 7
     (by decide) (by decide)⟩

end CrawlVaani

